import Mathlib

/-!
# Verification of the dotnet-start target-binary resolution pipeline

Shallow embedding of the core logic of the `vscode-dotnet-start` extension:
the argument tokenizer, the MSBuild output parsers (both the boundary-checking
revision and the plain line-scanning revision), the expected-target-path
calculator, the two revisions of the binary resolver, the launch-profile
reader and the launch-descriptor builder.  External effects (subprocess
invocations, `vscode.workspace.findFiles` glob queries, file existence checks,
`JSON.parse` outcomes) are supplied through explicit environment records; the
decision logic operating on their results is translated directly from the
TypeScript source.
-/

/-! ## JavaScript string primitives -/

/-- The character class matched by JavaScript `/\s/` (also the set trimmed by
`String.prototype.trim`): ASCII whitespace, NBSP, the Unicode space
separators, the line separators and the BOM. -/
def isJsSpace (c : Char) : Bool :=
  let n := c.toNat
  n == 32 || n == 9 || n == 10 || n == 13 || n == 11 || n == 12 ||
  n == 0xa0 || n == 0x1680 || (0x2000 ≤ n && n ≤ 0x200a) ||
  n == 0x2028 || n == 0x2029 || n == 0x202f || n == 0x205f ||
  n == 0x3000 || n == 0xfeff

/-- `trimStart` on a character list (JS `String.prototype.trimStart`). -/
def jsTrimStartList (l : List Char) : List Char :=
  l.dropWhile (fun c => isJsSpace c)

/-- `trim` on a character list (JS `String.prototype.trim`). -/
def jsTrimList (l : List Char) : List Char :=
  ((l.dropWhile (fun c => isJsSpace c)).reverse.dropWhile (fun c => isJsSpace c)).reverse

/-- `trim` on strings. -/
def jsTrim (s : String) : String :=
  String.mk (jsTrimList s.data)

/-- Character-wise `toLowerCase` on a character list (ASCII range, which is
all the property names and path segments under consideration use). -/
def toLowerL (l : List Char) : List Char :=
  l.map Char.toLower

/-- `toLowerCase` on strings. -/
def toLowerStr (s : String) : String :=
  String.mk (toLowerL s.data)

/-- JS `String.prototype.indexOf` for a single character, as an option. -/
def charIndexOf : List Char → Char → Option Nat
  | [], _ => none
  | c :: rest, t =>
    if c = t then some 0
    else match charIndexOf rest t with
      | some i => some (i + 1)
      | none => none

/-- JS `String.prototype.split` with a single-character separator:
`n` separators yield `n + 1` pieces (empty pieces preserved). -/
def splitListOnChar : List Char → Char → List (List Char)
  | [], _ => [[]]
  | c :: rest, sep =>
    if c = sep then [] :: splitListOnChar rest sep
    else
      match splitListOnChar rest sep with
      | h :: t => (c :: h) :: t
      | [] => [[c]]

/-- JS `replaceAll('\r\n', '\n')` (left-to-right, non-overlapping). -/
def crlfToLf : List Char → List Char
  | [] => []
  | '\r' :: '\n' :: rest => '\n' :: crlfToLf rest
  | c :: rest => c :: crlfToLf rest

/-- JS truthiness of a `string | undefined` value: defined and non-empty. -/
def jsTruthyStr : Option String → Bool
  | none => false
  | some s => s ≠ ""

/-! ## Node `path.posix` model

Faithful translations of the Node.js `path.posix` functions used by the
source (`join`, `normalize`, `isAbsolute`, `dirname`, `basename`,
`parse(..).name`, with `path.sep = "/"`). -/

/-- Segment resolution of Node's `normalizeStringPosix`: drops empty and `.`
segments and resolves `..` (keeping leading `..`s only for relative paths). -/
def posixNormSegs (allowAboveRoot : Bool) (segs : List String) : List String :=
  segs.foldl
    (fun stack seg =>
      if seg = "" ∨ seg = "." then stack
      else if seg = ".." then
        if stack ≠ [] ∧ stack.getLast? ≠ some ".." then stack.dropLast
        else if allowAboveRoot then stack ++ [".."] else stack
      else stack ++ [seg])
    []

/-- Node `path.posix.normalize`. -/
def posixNormalize (p : String) : String :=
  if p = "" then "."
  else
    let isAbs : Bool := p.data.head? = some '/'
    let trailing : Bool := p.data.getLast? = some '/'
    let segs := (splitListOnChar p.data '/').map String.mk
    let body := String.intercalate "/" (posixNormSegs (!isAbs) segs)
    let body := if body = "" ∧ ¬isAbs then "." else body
    let body := if body ≠ "" ∧ trailing then body ++ "/" else body
    if isAbs then "/" ++ body else body

/-- Node `path.posix.isAbsolute`. -/
def posixIsAbsolute (p : String) : Bool :=
  p.data.head? = some '/'

/-- Node `path.posix.join` over a list of parts. -/
def posixJoin (parts : List String) : String :=
  let nonempty := parts.filter (fun s => s ≠ "")
  if nonempty.isEmpty then "." else posixNormalize (String.intercalate "/" nonempty)

/-- Node `path.posix.dirname`. -/
def posixDirname (p : String) : String :=
  let l := p.data
  if l.isEmpty then "."
  else
    let hasRoot : Bool := l.head? = some '/'
    let r := l.reverse
    let r1 := r.dropWhile (fun c => c = '/')
    let r2 := r1.dropWhile (fun c => c ≠ '/')
    if r2.length ≤ 1 then (if hasRoot then "/" else ".")
    else if hasRoot ∧ r2.length = 2 then "//"
    else String.mk (r2.drop 1).reverse

/-- Node `path.posix.basename` (no extension argument). -/
def posixBasename (p : String) : String :=
  let r := p.data.reverse
  let r1 := r.dropWhile (fun c => c = '/')
  String.mk (r1.takeWhile (fun c => c ≠ '/')).reverse

/-- Index of the last occurrence of a character, if any. -/
def lastIndexOfChar (l : List Char) (t : Char) : Option Nat :=
  match charIndexOf l.reverse t with
  | some i => some (l.length - 1 - i)
  | none => none

/-- Node `path.posix.parse(p).name`: the basename with its extension
stripped; a leading dot or an all-dots basename keeps everything. -/
def posixParseName (p : String) : String :=
  let b := (posixBasename p).data
  match lastIndexOfChar b '.' with
  | none => String.mk b
  | some idx =>
    if idx = 0 ∨ b = ['.', '.'] then String.mk b else String.mk (b.take idx)

/-! ## Argument tokenizer

Translation of `parseCommandLineArgs` (identical in
`src/services/csprojService.ts`, `src/debugging/dotnetStartDebugService.ts`
and `src/extension.ts`): splits on unquoted whitespace, single and double
quotes open/close quoted spans, and a backslash escapes the following
character only when it is a quote or another backslash. -/

/-- The tokenizer's `flush` closure: pushes the current token when it is
non-empty. -/
def flushArg (current : List Char) (acc : List (List Char)) : List (List Char) :=
  if current.isEmpty then acc else acc ++ [current]

/-- The character loop of `parseCommandLineArgs`.  `q` is the pair
`(inQuotes, quoteChar)` collapsed into an option, `current` the token being
accumulated and `acc` the tokens emitted so far. -/
def parseArgsLoop (q : Option Char) (current : List Char)
    (acc : List (List Char)) : List Char → List (List Char)
  | [] => flushArg current acc
  | c :: rest =>
    if (c = '"' ∨ c = '\'') ∧ (q = none ∨ q = some c) then
      parseArgsLoop (if q = none then some c else none) current acc rest
    else if q = none ∧ isJsSpace c then
      parseArgsLoop none [] (flushArg current acc) rest
    else if c = '\\' then
      match rest with
      | next :: rest2 =>
        if next = '"' ∨ next = '\'' ∨ next = '\\' then
          parseArgsLoop q (current ++ [next]) acc rest2
        else
          parseArgsLoop q (current ++ [c]) acc (next :: rest2)
      | [] =>
        -- a trailing backslash is kept literally; the loop then ends and flushes
        flushArg (current ++ [c]) acc
    else
      parseArgsLoop q (current ++ [c]) acc rest

/-- `parseCommandLineArgs(text)`: empty or undefined input yields no
arguments; otherwise the character loop runs from the initial state. -/
def parseCommandLineArgs (text : Option String) : List String :=
  match text with
  | none => []
  | some t => if t = "" then [] else (parseArgsLoop none [] [] t.data).map String.mk

/-! ## MSBuild `-getProperty` output parsers

Two revisions exist in the repository.  The boundary-checking revision
(`src/unnamed/part_004`, `parseMsbuildGetPropertyOutput`) requires the
property name to be followed by whitespace, `=` or `:` and supports a
value on the following line; the plain revision
(`src/debugging/dotnetStartDebugService.ts` and `src/extension.ts`) only
scans for a line whose lowercase form starts with the lowercase property
name and takes the remainder after `=` or `:`. -/

namespace MsbuildPropsV4

/-- `[A-Za-z_]`, the first character of the header-line pattern. -/
def isIdentStart (c : Char) : Bool :=
  c.isAlpha || c = '_'

/-- `[A-Za-z0-9_.]`, the remaining characters of a property name in the
header-line pattern. -/
def isIdentChar (c : Char) : Bool :=
  c.isAlphanum || c = '_' || c = '.'

/-- The regular expression `/^[A-Za-z_][A-Za-z0-9_.]*\s*[:=]\s*$/` used to
reject a "value" line that is itself another property header. -/
def headerPatternTest (l : List Char) : Bool :=
  match l with
  | [] => false
  | c :: rest =>
    if isIdentStart c then
      match (rest.dropWhile isIdentChar).dropWhile (fun d => isJsSpace d) with
      | d :: rest2 => (d = ':' || d = '=') && ((rest2.dropWhile (fun e => isJsSpace e)).isEmpty)
      | [] => false
    else false

/-- The `parseRemainder` closure: strips an optional leading `=`/`:` and
trims; an empty result means "no value on this line". -/
def parseRemainder (remainder : List Char) : Option (List Char) :=
  match remainder with
  | [] => none
  | first :: _ =>
    let value :=
      if first = '=' ∨ first = ':' then jsTrimList (remainder.drop 1)
      else jsTrimList remainder
    if value.isEmpty then none else some value

/-- The matched-line body of `parseMsbuildGetPropertyOutput`
(`src/unnamed/part_004`): the same-line value if present, otherwise the
next-line rule for bare headers.  `next?` is `lines[i + 1]` and `contin`
the result of continuing the scan with the remaining lines (every fall
through of the original loop body). -/
def lookupBody (propertyName line : List Char) (next? : Option (List Char))
    (contin : Option (List Char)) : Option (List Char) :=
  let remainder := jsTrimStartList (line.drop propertyName.length)
  match parseRemainder remainder with
  | some v => some v
  | none =>
    let headerSuffix := jsTrimList remainder
    if ¬ (headerSuffix.isEmpty ∨ headerSuffix = [':'] ∨ headerSuffix = ['=']) then
      contin
    else
      match next? with
      | some next =>
        if ¬ (jsTrimList next).isEmpty then
          let value := jsTrimList next
          if ¬ headerPatternTest value ∧ ¬ value.isEmpty then some value
          else contin
        else contin
      | none => contin

/-- The line-scanning loop of `parseMsbuildGetPropertyOutput`
(`src/unnamed/part_004` lines 187-254): skips lines where the property name
is not followed by whitespace, `=` or `:` (preventing `TargetFramework`
from matching a `TargetFrameworks` line), parses the remainder, and for a
bare header line consults the next line unless it looks like another
header. -/
def lookupLoop (propertyName propertyLower : List Char) :
    List (List Char) → Option (List Char)
  | [] => none
  | line :: rest =>
    let lower := toLowerL line
    if ¬ propertyLower.isPrefixOf lower then lookupLoop propertyName propertyLower rest
    else
      match lower.drop propertyLower.length with
      | b :: _ =>
        if b ≠ ' ' ∧ b ≠ '\t' ∧ b ≠ '=' ∧ b ≠ ':' then
          lookupLoop propertyName propertyLower rest
        else
          lookupBody propertyName line rest.head?
            (lookupLoop propertyName propertyLower rest)
      | [] =>
        lookupBody propertyName line rest.head?
          (lookupLoop propertyName propertyLower rest)

/-- `parseMsbuildGetPropertyOutput` of `src/unnamed/part_004`: normalizes
CRLF, splits into trimmed non-blank lines, scans with the boundary check,
and falls back to the degenerate single-line rule. -/
def parseMsbuildGetPropertyOutput (propertyName output : String) : Option String :=
  let text := crlfToLf output.data
  let lines := ((splitListOnChar text '\n').map jsTrimList).filter (fun l => ¬ l.isEmpty)
  let propertyLower := toLowerL propertyName.data
  match lookupLoop propertyName.data propertyLower lines with
  | some v => some (String.mk v)
  | none =>
    if lines.length = 1 then (lines.head?).map String.mk else none

end MsbuildPropsV4

namespace DbgService

/-- The line-scanning loop of the plain `parseMsbuildGetPropertyOutput`
(`src/debugging/dotnetStartDebugService.ts` lines 247-284): any line whose
lowercase form merely starts with the lowercase property name matches; the
value is the trimmed remainder after the first `=`, else after the first
`:`. -/
def lookupLoop (propertyLower : List Char) : List (List Char) → Option (List Char)
  | [] => none
  | line :: rest =>
    let lower := toLowerL line
    if ¬ propertyLower.isPrefixOf lower then lookupLoop propertyLower rest
    else
      let eqResult : Option (List Char) :=
        match charIndexOf line '=' with
        | some idx =>
          let value := jsTrimList (line.drop (idx + 1))
          if ¬ value.isEmpty then some value else none
        | none => none
      match eqResult with
      | some v => some v
      | none =>
        let colonResult : Option (List Char) :=
          match charIndexOf line ':' with
          | some idx =>
            let value := jsTrimList (line.drop (idx + 1))
            if ¬ value.isEmpty then some value else none
          | none => none
        match colonResult with
        | some v => some v
        | none => lookupLoop propertyLower rest

/-- The plain `parseMsbuildGetPropertyOutput` revision. -/
def parseMsbuildGetPropertyOutput (propertyName output : String) : Option String :=
  let text := crlfToLf output.data
  let lines := ((splitListOnChar text '\n').map jsTrimList).filter (fun l => ¬ l.isEmpty)
  let propertyLower := toLowerL propertyName.data
  match lookupLoop propertyLower lines with
  | some v => some (String.mk v)
  | none =>
    if lines.length = 1 then (lines.head?).map String.mk else none

end DbgService

/-! ## MSBuild properties and the expected-target-path calculator

Translation of `src/services/msbuildProjectPropertiesService.ts`
(`MsbuildProjectProperties`, `computeExpectedTargetPath`,
`splitSemicolonList`, `convertMsbuildPropertyToBoolean`).  The `let`
bindings of `computeExpectedTargetPath` are factored into named
definitions so the append decision can be talked about directly. -/

/-- The sparse property record returned by the MSBuild query. -/
structure MsbuildProjectProperties where
  TargetPath : Option String := none
  TargetFramework : Option String := none
  TargetFrameworks : Option String := none
  OutputPath : Option String := none
  BaseOutputPath : Option String := none
  AssemblyName : Option String := none
  TargetExt : Option String := none
  TargetFileName : Option String := none
  AppendTargetFrameworkToOutputPath : Option String := none
  deriving DecidableEq

/-- `splitSemicolonList`: semicolon-separated entries, trimmed, blanks
dropped; a missing or empty value yields the empty list. -/
def splitSemicolonList : Option String → List String
  | none => []
  | some v =>
    if v = "" then []
    else (((splitListOnChar v.data ';').map jsTrimList).filter
      (fun l => ¬ l.isEmpty)).map String.mk

/-- `convertMsbuildPropertyToBoolean`: case-insensitive `"true"`/`"false"`
after trimming; anything else (including a missing or empty value) is
`undefined`. -/
def convertMsbuildPropertyToBoolean : Option String → Option Bool
  | none => none
  | some v =>
    if v = "" then none
    else
      let normalized := toLowerStr (jsTrim v)
      if normalized = "true" then some true
      else if normalized = "false" then some false
      else none

/-- The JS pattern `o && o.trim().length > 0 ? o : undefined`: keep the
original value only when it is defined and non-blank. -/
def nonBlankOpt : Option String → Option String
  | none => none
  | some s => if s ≠ "" ∧ jsTrim s ≠ "" then some s else none

/-- The framework moniker:
`props.TargetFramework ?? splitSemicolonList(props.TargetFrameworks)[0]`. -/
def resolveTfm (props : MsbuildProjectProperties) : Option String :=
  match props.TargetFramework with
  | some t => some t
  | none => (splitSemicolonList props.TargetFrameworks).head?

/-- The resolved absolute output directory: explicit `OutputPath`, else
`BaseOutputPath`, else the conventional `bin/<configuration>/`, made
absolute against the project directory when relative. -/
def resolveOutputPathAbs (csprojPath configuration : String)
    (props : MsbuildProjectProperties) : String :=
  let projectDir := posixDirname csprojPath
  let outputPathRaw :=
    match nonBlankOpt props.OutputPath with
    | some o => o
    | none =>
      match nonBlankOpt props.BaseOutputPath with
      | some b => b
      | none => posixJoin ["bin", configuration, "/"]
  if posixIsAbsolute outputPathRaw then outputPathRaw
  else posixJoin [projectDir, outputPathRaw]

/-- `path.normalize(outputPath).split(path.sep).filter(p => p.length > 0)
.map(p => p.toLowerCase())`. -/
def normalizedOutputParts (outputPath : String) : List (List Char) :=
  ((splitListOnChar (posixNormalize outputPath).data '/').filter
    (fun p => ¬ p.isEmpty)).map toLowerL

/-- The moniker-append decision of `computeExpectedTargetPath`:
`shouldAppendTfm && !normalizedOutputParts.includes(tfm.toLowerCase())`
where `shouldAppendTfm = tfm && (appendTfm ?? true)`. -/
def appendDecision (csprojPath configuration : String)
    (props : MsbuildProjectProperties) : Bool :=
  let tfm := resolveTfm props
  let appendTfm := convertMsbuildPropertyToBoolean props.AppendTargetFrameworkToOutputPath
  let shouldAppendTfm := jsTruthyStr tfm && appendTfm.getD true
  shouldAppendTfm &&
    !((normalizedOutputParts (resolveOutputPathAbs csprojPath configuration props)).contains
      (toLowerL (tfm.getD "").data))

/-- The target file name: explicit `TargetFileName`, else
`<AssemblyName-or-projectName><TargetExt-or-".dll">`. -/
def resolveTargetFileName (csprojPath : String)
    (props : MsbuildProjectProperties) : String :=
  let projectName := posixParseName csprojPath
  match nonBlankOpt props.TargetFileName with
  | some t => t
  | none =>
    (match nonBlankOpt props.AssemblyName with
      | some a => a
      | none => projectName) ++ props.TargetExt.getD ".dll"

/-- `computeExpectedTargetPath` (`src/services/msbuildProjectPropertiesService.ts`
lines 87-122): joins the output directory (with the framework moniker
appended when the append decision holds) and the target file name. -/
def computeExpectedTargetPath (csprojPath configuration : String)
    (props : MsbuildProjectProperties) : Option String :=
  let tfm := resolveTfm props
  let outputPath := resolveOutputPathAbs csprojPath configuration props
  let outputDir :=
    if appendDecision csprojPath configuration props then
      posixJoin [outputPath, tfm.getD ""]
    else outputPath
  some (posixJoin [outputDir, resolveTargetFileName csprojPath props])

/-! ## Launch-profile reading and the debug-configuration builder

Translation of `CsprojService` (`src/services/csprojService.ts`): the
JSON-level profile extraction (`readLaunchProfileDetails`,
`coerceStringRecord`), the environment merge, the fallback DLL selection,
the tiered binary resolver and `buildCoreclrDotnetStartConfiguration`.
Subprocess and filesystem effects (the MSBuild query outcome, the three
`findFiles` glob results, `fs.stat` existence checks and the `JSON.parse`
outcome for `launchSettings.json`) are environment fields. -/

/-- Parsed JSON values (the result of a successful `JSON.parse`). -/
inductive Json where
  | str (s : String)
  | num (n : Int)
  | bool (b : Bool)
  | null
  | arr (xs : List Json)
  | obj (fields : List (String × Json))

/-- JS property access on a parsed JSON value: defined only for object
fields (array index and primitive access are `undefined` for the names
used here). -/
def jsObjGet : Json → String → Option Json
  | .obj fields, k => (fields.find? (fun p => p.1 = k)).map (fun p => p.2)
  | _, _ => none

/-- JS `typeof v === 'object'` (true for objects, arrays and `null`). -/
def jsTypeofObject : Json → Bool
  | .obj _ => true
  | .arr _ => true
  | .null => true
  | _ => false

/-- JS truthiness of a parsed JSON value. -/
def jsTruthyJson : Json → Bool
  | .null => false
  | .bool b => b
  | .num n => n ≠ 0
  | .str s => s ≠ ""
  | _ => true

/-- `typeof v === 'string' ? v : undefined`. -/
def asJsString : Option Json → Option String
  | some (.str s) => some s
  | _ => none

/-- `coerceStringRecord`: keeps only the string-valued entries of an
object (anything that is not a truthy `typeof === 'object'` value yields
the empty record). -/
def coerceStringRecord : Option Json → List (String × String)
  | some (.obj fields) => fields.filterMap
      (fun p => match p.2 with
        | .str s => some (p.1, s)
        | _ => none)
  | _ => []

/-- A profile entry as extracted by `readLaunchProfileDetails`. -/
structure LaunchProfileDetails where
  commandName : Option String := none
  commandLineArgs : Option String := none
  applicationUrl : Option String := none
  environmentVariables : Option (List (String × String)) := none
  deriving DecidableEq

/-- `readLaunchProfileDetails` after `JSON.parse`
(`src/services/csprojService.ts` lines 200-229): drills into
`profiles[profileName]` with JS truthiness/typeof checks and type-checks
each field. -/
def readLaunchProfileDetails (root : Json) (profileName : String) :
    Option LaunchProfileDetails :=
  if ¬ (jsTruthyJson root ∧ jsTypeofObject root) then none
  else
    match jsObjGet root "profiles" with
    | none => none
    | some profiles =>
      if ¬ (jsTruthyJson profiles ∧ jsTypeofObject profiles) then none
      else
        match jsObjGet profiles profileName with
        | none => none
        | some profile =>
          if ¬ (jsTruthyJson profile ∧ jsTypeofObject profile) then none
          else
            some
              { commandName := asJsString (jsObjGet profile "commandName")
                commandLineArgs := asJsString (jsObjGet profile "commandLineArgs")
                applicationUrl := asJsString (jsObjGet profile "applicationUrl")
                environmentVariables :=
                  some (coerceStringRecord (jsObjGet profile "environmentVariables")) }

/-- Lookup in a JS-object-like environment map. -/
def envLookup (m : List (String × String)) (k : String) : Option String :=
  (m.find? (fun p => p.1 = k)).map (fun p => p.2)

/-- Assignment `m[k] = v` on a JS-object-like environment map: overwrites
an existing entry, otherwise appends. -/
def envSet (m : List (String × String)) (k v : String) : List (String × String) :=
  if (m.find? (fun p => p.1 = k)).isSome then
    m.map (fun p => if p.1 = k then (k, v) else p)
  else m ++ [(k, v)]

/-- The environment merge of `buildCoreclrDotnetStartConfiguration`
(`src/services/csprojService.ts` lines 163-166):
`const env = { ...(details.environmentVariables ?? {}) };
if (details.applicationUrl && !env.ASPNETCORE_URLS)
  env.ASPNETCORE_URLS = details.applicationUrl;` -/
def mergeLaunchEnv (environmentVariables : Option (List (String × String)))
    (applicationUrl : Option String) : List (String × String) :=
  let env := environmentVariables.getD []
  if jsTruthyStr applicationUrl ∧
      ¬ jsTruthyStr (envLookup env "ASPNETCORE_URLS") then
    envSet env "ASPNETCORE_URLS" (applicationUrl.getD "")
  else env

/-- The external effects consumed by `CsprojService`: the launch-settings
location probe, the `JSON.parse` outcome of the settings file, the MSBuild
property-query outcome, the three `findFiles` glob results (paths, in
result order) and the `fs.stat` existence oracle. -/
structure CsprojServiceEnv where
  launchSettingsUri : Option String := none
  launchSettingsJson : Except String Json := .error "ENOENT"
  toolProps : Option MsbuildProjectProperties := none
  preferredMatches : List String := []
  anyDebugMatches : List String := []
  anyDllMatches : List String := []
  fileExists : String → Bool := fun _ => false

/-- `findFallbackOutputDll` (`src/services/csprojService.ts` lines
287-319): the layered glob search with exact-project-name preference in
the wider tiers. -/
def findFallbackOutputDll (env : CsprojServiceEnv) (csprojPath : String) :
    Option String :=
  let projectName := posixParseName csprojPath
  if ¬ env.preferredMatches.isEmpty then env.preferredMatches.head?
  else if ¬ env.anyDebugMatches.isEmpty then
    match env.anyDebugMatches.find?
        (fun u => toLowerStr (posixBasename u) = toLowerStr projectName ++ ".dll") with
    | some exact => some exact
    | none => env.anyDebugMatches.head?
  else if ¬ env.anyDllMatches.isEmpty then
    match env.anyDllMatches.find?
        (fun u => toLowerStr (posixBasename u) = toLowerStr projectName ++ ".dll") with
    | some exact => some exact
    | none => env.anyDllMatches.head?
  else none

/-- A resolved binary: path plus provenance tag. -/
structure ResolvedBinary where
  binaryPath : String
  source : String
  deriving DecidableEq

/-- `resolveTargetBinaryPath` of `CsprojService`
(`src/services/csprojService.ts` lines 342-384): tool-reported
`TargetPath` first, then the computed expected path, then the layered
filesystem search, and finally the conventional guess
`bin/Debug/<projectName>.dll`. -/
def CsprojService.resolveTargetBinaryPath (env : CsprojServiceEnv)
    (csprojPath : String) : ResolvedBinary :=
  let projectDir := posixDirname csprojPath
  let projectName := posixParseName csprojPath
  let fallbackTier : ResolvedBinary :=
    match findFallbackOutputDll env csprojPath with
    | some f => { binaryPath := f, source := "fallback-search" }
    | none =>
      { binaryPath := posixJoin [projectDir, "bin", "Debug", projectName ++ ".dll"]
        source := "fallback-search" }
  match env.toolProps with
  | some props =>
    let directTargetPath := nonBlankOpt props.TargetPath
    match directTargetPath with
    | some tp =>
      let normalized := jsTrim tp
      let absolute :=
        if posixIsAbsolute normalized then normalized
        else posixJoin [projectDir, normalized]
      { binaryPath := absolute, source := "msbuild" }
    | none =>
      match computeExpectedTargetPath csprojPath "Debug" props with
      | some computed =>
        if computed ≠ "" then { binaryPath := computed, source := "msbuild" }
        else fallbackTier
      | none => fallbackTier
  | none => fallbackTier

/-- The final `coreclr` debug configuration. -/
structure DebugConfiguration where
  type : String
  request : String
  name : String
  program : String
  args : List String
  cwd : String
  console : String
  internalConsoleOptions : String
  env : List (String × String)
  deriving DecidableEq

/-- `buildCoreclrDotnetStartConfiguration`
(`src/services/csprojService.ts` lines 114-184).  Returns the
configuration (or `none` for a reported failure) together with the list of
error messages passed to `showErrorMessage`.  The kind check rejects a
profile whose `commandName` is truthy and differs from `"Project"` before
the binary resolution step runs. -/
def buildCoreclrDotnetStartConfiguration (env : CsprojServiceEnv)
    (csprojPath profileName configurationName : String) :
    Option DebugConfiguration × List String :=
  let projectDir := posixDirname csprojPath
  match env.launchSettingsUri with
  | none =>
    (none, ["No launchSettings.json found for " ++ posixBasename csprojPath ++
      " (expected Properties/launchSettings.json)."])
  | some _ =>
    match env.launchSettingsJson with
    | .error e =>
      (none, ["Failed to read launch profile \"" ++ profileName ++ "\": " ++ e])
    | .ok root =>
      match readLaunchProfileDetails root profileName with
      | none =>
        (none, ["Launch profile \"" ++ profileName ++
          "\" was not found in launchSettings.json."])
      | some details =>
        if jsTruthyStr details.commandName ∧ details.commandName ≠ some "Project" then
          (none, ["Launch profile \"" ++ profileName ++ "\" uses commandName=\"" ++
            (details.commandName.getD "") ++ "\". Only \"Project\" is supported."])
        else
          let resolved := CsprojService.resolveTargetBinaryPath env csprojPath
          if ¬ env.fileExists resolved.binaryPath then
            (none, ["Build output was not found at " ++ resolved.binaryPath ++
              ". (resolved via " ++ resolved.source ++ ")"])
          else
            let mergedEnv := mergeLaunchEnv details.environmentVariables details.applicationUrl
            let runtimeArgs := parseCommandLineArgs details.commandLineArgs
            (some
              { type := "coreclr"
                request := "launch"
                name := configurationName
                program := "dotnet"
                args := resolved.binaryPath :: runtimeArgs
                cwd := projectDir
                console := "integratedTerminal"
                internalConsoleOptions := "neverOpen"
                env := mergedEnv }, [])

/-! ## The `DotnetStartDebugService` resolver revision

Translation of `resolveTargetBinaryPath` in
`src/debugging/dotnetStartDebugService.ts` (lines 371-393) and the helpers
it calls.  In this revision the filesystem glob search runs *first*; the
MSBuild `TargetPath` query (parsed with the plain line parser) is only
consulted when no DLL was found, and the last resort is the project file
path itself. -/

namespace DbgService

/-- The external effects consumed by this revision: the three `findFiles`
glob results and the combined stdout/stderr text of each of the three
MSBuild invocations (`none` when `execFile` threw). -/
structure Env where
  preferredMatches : List String := []
  anyDebugMatches : List String := []
  anyDllMatches : List String := []
  msbuildTargetPathOutput : Option String := none
  msbuildTfmOutput : Option String := none
  msbuildTargetPathWithTfmOutput : Option String := none

/-- `findFallbackOutputDll` (identical logic to the `CsprojService`
revision). -/
def findFallbackOutputDll (env : Env) (csprojPath : String) : Option String :=
  let projectName := posixParseName csprojPath
  if ¬ env.preferredMatches.isEmpty then env.preferredMatches.head?
  else if ¬ env.anyDebugMatches.isEmpty then
    match env.anyDebugMatches.find?
        (fun u => toLowerStr (posixBasename u) = toLowerStr projectName ++ ".dll") with
    | some exact => some exact
    | none => env.anyDebugMatches.head?
  else if ¬ env.anyDllMatches.isEmpty then
    match env.anyDllMatches.find?
        (fun u => toLowerStr (posixBasename u) = toLowerStr projectName ++ ".dll") with
    | some exact => some exact
    | none => env.anyDllMatches.head?
  else none

/-- `tryGetMsbuildTargetPath` applied to a query outcome: parses
`TargetPath` from the combined output and keeps only a non-empty value. -/
def tryGetMsbuildTargetPath (output : Option String) : Option String :=
  match output with
  | none => none
  | some combined =>
    match parseMsbuildGetPropertyOutput "TargetPath" combined with
    | some v => if v ≠ "" then some v else none
    | none => none

/-- `tryGetMsbuildTargetFramework` applied to a query outcome: the single
`TargetFramework` value if truthy, else the first entry of the
`TargetFrameworks` list. -/
def tryGetMsbuildTargetFramework (output : Option String) : Option String :=
  match output with
  | none => none
  | some combined =>
    match parseMsbuildGetPropertyOutput "TargetFramework" combined with
    | some single =>
      if single ≠ "" then some single
      else (splitSemicolonList
        (parseMsbuildGetPropertyOutput "TargetFrameworks" combined)).head?
    | none =>
      (splitSemicolonList
        (parseMsbuildGetPropertyOutput "TargetFrameworks" combined)).head?

/-- `resolveTargetBinaryPath` (`src/debugging/dotnetStartDebugService.ts`
lines 371-393): filesystem search first, then the direct `TargetPath`
query, then a per-framework retry, and finally the project file path
itself with provenance `"fallback-search"`. -/
def resolveTargetBinaryPath (env : Env) (csprojPath : String) : ResolvedBinary :=
  match findFallbackOutputDll env csprojPath with
  | some fallback => { binaryPath := fallback, source := "fallback-search" }
  | none =>
    match tryGetMsbuildTargetPath env.msbuildTargetPathOutput with
    | some directTargetPath => { binaryPath := directTargetPath, source := "msbuild" }
    | none =>
      match tryGetMsbuildTargetFramework env.msbuildTfmOutput with
      | some _ =>
        match tryGetMsbuildTargetPath env.msbuildTargetPathWithTfmOutput with
        | some tfmTargetPath => { binaryPath := tfmTargetPath, source := "msbuild" }
        | none => { binaryPath := csprojPath, source := "fallback-search" }
      | none => { binaryPath := csprojPath, source := "fallback-search" }

end DbgService

/-! ## Spec-side definitions

Definitions following the specification's wording, used to compare the
code's behaviour against the spec (refinement claims). -/

/-- Spec wording for the append-flag condition: the flag "parses
case-insensitively to `'true'` or is absent (any string other than
`'true'`/`'false'` counts as absent)", and an absent flag defaults to
appending. -/
def specFlagAllowsAppend : Option String → Bool
  | none => true
  | some v =>
    let n := toLowerStr (jsTrim v)
    n = "true" || (n ≠ "true" && n ≠ "false")

/-- Spec wording for the whole moniker-append condition: a moniker is
known, the flag allows appending, and the resolved output directory's
path segments do not already contain the moniker case-insensitively. -/
def specAppendCondition (csprojPath configuration : String)
    (props : MsbuildProjectProperties) : Bool :=
  match resolveTfm props with
  | none => false
  | some t =>
    t ≠ "" && specFlagAllowsAppend props.AppendTargetFrameworkToOutputPath &&
      !((normalizedOutputParts (resolveOutputPathAbs csprojPath configuration props)).contains
        (toLowerL t.data))

/-- Joining tokens with single spaces (the spec's re-join operation). -/
def joinWithSingleSpaces : List String → String
  | [] => ""
  | [t] => t
  | t :: rest => t ++ " " ++ joinWithSingleSpaces rest

/-- Character-level version of `joinWithSingleSpaces`. -/
def joinTokensChars : List (List Char) → List Char
  | [] => []
  | [t] => t
  | t :: rest => t ++ ' ' :: joinTokensChars rest

/-- A character that the tokenizer passes through untouched: not
whitespace, not a quote, not a backslash. -/
def plainTokenChar (c : Char) : Bool :=
  !isJsSpace c && c ≠ '"' && c ≠ '\'' && c ≠ '\\'

/-! ## Concrete fixtures used by witnesses and counterexamples -/

/-- The property set of the spec's `computeExpectedPath` test vector. -/
def c4Props : MsbuildProjectProperties :=
  { TargetFramework := some "net8.0", OutputPath := some "bin/Debug/",
    AssemblyName := some "App", TargetExt := some ".dll",
    AppendTargetFrameworkToOutputPath := some "true" }

/-- A `CsprojService` environment where the tool query reports a direct
(relative) `TargetPath` *and* a filesystem fallback candidate exists. -/
def envToolAndFallback : CsprojServiceEnv :=
  { toolProps := some { TargetPath := some "bin/Debug/net8.0/App.dll" },
    preferredMatches := ["/repo/App/bin/Debug/net8.0/OtherLib.dll"] }

/-- A debug-service environment where the tool query reports a direct
`TargetPath` and a filesystem fallback candidate also exists. -/
def dbgEnvToolAndFallback : DbgService.Env :=
  { preferredMatches := ["/repo/App/bin/Debug/net8.0/App.dll"],
    msbuildTargetPathOutput := some "TargetPath = /repo/App/bin/Debug/net9.0/App.dll" }

/-- `launchSettings.json` content whose `Dev` profile declares
`commandName: ""` (a string other than `"Project"`, but falsy). -/
def launchSettingsEmptyKind : Json :=
  .obj [("profiles", .obj [("Dev", .obj [("commandName", .str "")])])]

/-- `launchSettings.json` content whose `Dev` profile declares
`commandName: "Executable"`. -/
def launchSettingsExecutableKind : Json :=
  .obj [("profiles", .obj [("Dev", .obj [("commandName", .str "Executable")])])]

/-- `launchSettings.json` content whose `Dev` profile declares a
non-string `commandName` (the number `42`). -/
def launchSettingsNumericKind : Json :=
  .obj [("profiles", .obj [("Dev", .obj [("commandName", .num 42)])])]

/-- An environment where the settings file exists, the tool reports a
`TargetPath` and every path exists on disk, parameterised by the parsed
settings content. -/
def envWithSettings (root : Json) : CsprojServiceEnv :=
  { launchSettingsUri := some "/repo/App/Properties/launchSettings.json",
    launchSettingsJson := .ok root,
    toolProps := some { TargetPath := some "/repo/App/bin/Debug/net8.0/App.dll" },
    fileExists := fun _ => true }

/-! ## Claim theorems -/

/-- C4: `computeExpectedTargetPath` applied to
`{TargetFramework: "net8.0", OutputPath: "bin/Debug/", AssemblyName:
"App", TargetExt: ".dll", AppendTargetFrameworkToOutputPath: "true"}`
with configuration `Debug` and a project file in `/repo/App` yields
exactly `/repo/App/bin/Debug/net8.0/App.dll`. -/
theorem C4_computeExpectedTargetPath_vector :
    computeExpectedTargetPath "/repo/App/App.csproj" "Debug" c4Props =
      some "/repo/App/bin/Debug/net8.0/App.dll" := by
  decide

/-- C3 counterexample: the plain parser revision
(`src/debugging/dotnetStartDebugService.ts` lines 247-284) has no
property-name boundary check, so on an output containing both lines with
the `TargetFrameworks` line first, parsing `TargetFramework` returns the
multi-framework list instead of `net8.0` — refuting the claim as stated
for that cited revision. -/
theorem C3_counterexample_plain_revision :
    DbgService.parseMsbuildGetPropertyOutput "TargetFramework"
        "TargetFrameworks = net8.0;net9.0\nTargetFramework = net8.0" =
      some "net8.0;net9.0" ∧
    DbgService.parseMsbuildGetPropertyOutput "TargetFramework"
        "TargetFrameworks = net8.0;net9.0\nTargetFramework = net8.0" ≠
      some "net8.0" := by
  decide

/-- C3 (amended): the boundary-checking parser revision
(`src/unnamed/part_004`) yields exactly `net8.0` for `TargetFramework`
on an output containing both a `TargetFramework = net8.0` line and a
`TargetFrameworks = net8.0;net9.0` line, in either line order: the
boundary check (name followed by whitespace, `=` or `:`) prevents the
`TargetFrameworks` line from matching. -/
theorem C3_boundary_checked_revision :
    MsbuildPropsV4.parseMsbuildGetPropertyOutput "TargetFramework"
        "TargetFramework = net8.0\nTargetFrameworks = net8.0;net9.0" =
      some "net8.0" ∧
    MsbuildPropsV4.parseMsbuildGetPropertyOutput "TargetFramework"
        "TargetFrameworks = net8.0;net9.0\nTargetFramework = net8.0" =
      some "net8.0" := by
  decide

/-- C1 counterexample: in the cited `DotnetStartDebugService` revision the
filesystem glob-search tier runs before the tool query, so with a
filesystem candidate present and the tool reporting a non-blank direct
`TargetPath` the resolver still returns the glob hit with provenance
`"fallback-search"` — refuting the claimed tier precedence for that
revision. -/
theorem C1_counterexample_dbg_resolver :
    DbgService.tryGetMsbuildTargetPath dbgEnvToolAndFallback.msbuildTargetPathOutput =
      some "/repo/App/bin/Debug/net9.0/App.dll" ∧
    DbgService.resolveTargetBinaryPath dbgEnvToolAndFallback "/repo/App/App.csproj" =
      { binaryPath := "/repo/App/bin/Debug/net8.0/App.dll", source := "fallback-search" } := by
  decide

/-- C1 (amended, for the `CsprojService` revision): whenever the tool
query succeeds and reports a non-blank direct `TargetPath`, the resolver
returns that path (made absolute against the project directory) with the
tool provenance tag `"msbuild"`, regardless of any filesystem fallback
candidates in the environment. -/
theorem C1_tool_reported_wins (env : CsprojServiceEnv) (csprojPath : String)
    (props : MsbuildProjectProperties) (tp : String)
    (hprops : env.toolProps = some props) (htp : props.TargetPath = some tp)
    (hnb : jsTrim tp ≠ "") :
    CsprojService.resolveTargetBinaryPath env csprojPath =
      { binaryPath :=
          if posixIsAbsolute (jsTrim tp) then jsTrim tp
          else posixJoin [posixDirname csprojPath, jsTrim tp]
        source := "msbuild" } := by
  have htpne : tp ≠ "" := by
    intro h
    exact hnb (by simp [h, jsTrim, jsTrimList])
  simp [CsprojService.resolveTargetBinaryPath, hprops, nonBlankOpt, htp, htpne, hnb]

/-- C1 witness: the amended theorem applied to a concrete environment in
which a filesystem candidate also exists. -/
theorem C1_tool_reported_wins_witness :
    CsprojService.resolveTargetBinaryPath envToolAndFallback "/repo/App/App.csproj" =
      { binaryPath := "/repo/App/bin/Debug/net8.0/App.dll", source := "msbuild" } :=
  (C1_tool_reported_wins envToolAndFallback "/repo/App/App.csproj"
      { TargetPath := some "bin/Debug/net8.0/App.dll" } "bin/Debug/net8.0/App.dll"
      rfl rfl (by decide)).trans (by decide)

/-- C2 counterexample: in the cited `DotnetStartDebugService` revision,
when the filesystem search and every tool query yield nothing, the
resolver returns the *project file path itself* with provenance
`"fallback-search"`, not the conventional
`<projectDirectory>/bin/Debug/<projectName>.dll` guess the claim
states. -/
theorem C2_counterexample_dbg_resolver :
    DbgService.resolveTargetBinaryPath {} "/repo/App/App.csproj" =
      { binaryPath := "/repo/App/App.csproj", source := "fallback-search" } ∧
    "/repo/App/App.csproj" ≠ posixJoin ["/repo/App", "bin", "Debug", "App.dll"] := by
  decide

/-- C2 (amended, for the `CsprojService` revision): the resolver is total
— it always returns a path tagged `"msbuild"` or `"fallback-search"` —
and when the tool query and all three filesystem glob searches yield
nothing, the result is the conventional guess
`<projectDirectory>/bin/Debug/<projectName>.dll` with provenance
`"fallback-search"`. -/
theorem C2_resolver_total_with_conventional_guess (env : CsprojServiceEnv)
    (csprojPath : String) :
    ((CsprojService.resolveTargetBinaryPath env csprojPath).source = "msbuild" ∨
      (CsprojService.resolveTargetBinaryPath env csprojPath).source = "fallback-search") ∧
    (env.toolProps = none → env.preferredMatches = [] → env.anyDebugMatches = [] →
      env.anyDllMatches = [] →
      CsprojService.resolveTargetBinaryPath env csprojPath =
        { binaryPath := posixJoin [posixDirname csprojPath, "bin", "Debug",
            posixParseName csprojPath ++ ".dll"]
          source := "fallback-search" }) := by
  constructor
  · unfold CsprojService.resolveTargetBinaryPath
    rcases env.toolProps with _ | props <;>
      rcases hff : findFallbackOutputDll env csprojPath with _ | f <;>
        simp only [hff] <;> try simp
    · rcases h : nonBlankOpt props.TargetPath with _ | tp <;>
        simp only [computeExpectedTargetPath, h] <;> (try split) <;> (try split) <;>
          simp [hff]
    · rcases h : nonBlankOpt props.TargetPath with _ | tp <;>
        simp only [computeExpectedTargetPath, h] <;> (try split) <;> (try split) <;>
          simp [hff]
  · intro h1 h2 h3 h4
    simp [CsprojService.resolveTargetBinaryPath, findFallbackOutputDll, h1, h2, h3, h4]

/-- C2 witness: the amended theorem applied to the empty environment. -/
theorem C2_resolver_total_witness :
    CsprojService.resolveTargetBinaryPath {} "/repo/App/App.csproj" =
      { binaryPath := "/repo/App/bin/Debug/App.dll", source := "fallback-search" } :=
  ((C2_resolver_total_with_conventional_guess {} "/repo/App/App.csproj").2
    rfl rfl rfl rfl).trans (by decide)

/-- Helper for C5: the code's `appendTfm ?? true` (with
`convertMsbuildPropertyToBoolean`) agrees with the spec's reading of the
flag ("parses to `'true'`, or counts as absent — defaulting to append —
for anything other than `'true'`/`'false'`"). -/
theorem convertMsbuildPropertyToBoolean_getD (o : Option String) :
    (convertMsbuildPropertyToBoolean o).getD true = specFlagAllowsAppend o := by
  rcases o with _ | v
  · rfl
  · by_cases hv : v = ""
    · simp [convertMsbuildPropertyToBoolean, specFlagAllowsAppend, hv, jsTrim, jsTrimList,
        toLowerStr, toLowerL]
    · by_cases ht : toLowerStr (jsTrim v) = "true"
      · simp [convertMsbuildPropertyToBoolean, specFlagAllowsAppend, hv, ht]
      · by_cases hf : toLowerStr (jsTrim v) = "false"
        · simp [convertMsbuildPropertyToBoolean, specFlagAllowsAppend, hv, ht, hf]
        · simp [convertMsbuildPropertyToBoolean, specFlagAllowsAppend, hv, ht, hf]

/-- C5: the moniker-append decision inside `computeExpectedTargetPath`
holds exactly when the spec's condition does (moniker known, flag `true`
or absent — anything other than `true`/`false` counting as absent — and
the output directory's segments not already containing the moniker
case-insensitively); in particular, whenever the resolved output
directory already contains the moniker as a segment, the segment is not
appended again. -/
theorem C5_append_condition_matches_spec (csprojPath configuration : String)
    (props : MsbuildProjectProperties) :
    (appendDecision csprojPath configuration props =
      specAppendCondition csprojPath configuration props) ∧
    (∀ t : String, resolveTfm props = some t →
      (normalizedOutputParts (resolveOutputPathAbs csprojPath configuration props)).contains
        (toLowerL t.data) = true →
      computeExpectedTargetPath csprojPath configuration props =
        some (posixJoin [resolveOutputPathAbs csprojPath configuration props,
          resolveTargetFileName csprojPath props])) := by
  constructor
  · unfold appendDecision specAppendCondition
    rcases h : resolveTfm props with _ | t
    · simp [h, jsTruthyStr]
    · simp [h, jsTruthyStr, convertMsbuildPropertyToBoolean_getD, Bool.and_assoc]
  · intro t ht hc
    have hc' : toLowerL t.data ∈
        normalizedOutputParts (resolveOutputPathAbs csprojPath configuration props) := by
      simpa using hc
    have hd : appendDecision csprojPath configuration props = false := by
      unfold appendDecision
      simp [ht, hc']
    simp [computeExpectedTargetPath, hd]

/-- C5 witness: with `OutputPath` already containing `net8.0` as a
segment, the moniker is not appended again and the result stays
`/repo/App/bin/Debug/net8.0/App.dll`. -/
theorem C5_append_condition_witness :
    computeExpectedTargetPath "/repo/App/App.csproj" "Debug"
        { c4Props with OutputPath := some "bin/Debug/net8.0" } =
      some "/repo/App/bin/Debug/net8.0/App.dll" :=
  ((C5_append_condition_matches_spec "/repo/App/App.csproj" "Debug"
      { c4Props with OutputPath := some "bin/Debug/net8.0" }).2
    "net8.0" rfl (by decide)).trans (by decide)

/-- Helper: assignment on a JS-object-like map makes the key read back the
assigned value. -/
theorem envLookup_envSet (m : List (String × String)) (k v : String) :
    envLookup (envSet m k v) k = some v := by
  induction m with
  | nil => simp [envLookup, envSet]
  | cons hd tl ih =>
    by_cases hk : hd.1 = k
    · simp [envLookup, envSet, List.find?, hk]
    · rcases h : tl.find? (fun p => p.1 = k) with _ | p
      · simp [envLookup, envSet, List.find?, hk, h]
      · have ih' := ih
        simp [envLookup, envSet, List.find?, hk, h] at ih' ⊢
        exact ih'

/-- C6 counterexample: the merge uses JS truthiness, so an explicitly
declared but *empty* `ASPNETCORE_URLS` entry is overwritten by the value
synthesized from `applicationUrl` — the declared entry is not preserved
unchanged, refuting the claim as universally stated. -/
theorem C6_counterexample_empty_explicit_entry :
    envLookup (mergeLaunchEnv (some [("ASPNETCORE_URLS", "")])
        (some "http://localhost:5000")) "ASPNETCORE_URLS" =
      some "http://localhost:5000" ∧
    (some "http://localhost:5000" : Option String) ≠ some "" := by
  decide

/-- C6 (amended): an explicit *non-empty* `ASPNETCORE_URLS` entry in the
profile's environment map is preserved unchanged by the merge; and when
the profile declares a non-empty `applicationUrl` and no
`ASPNETCORE_URLS` entry, the merged map binds `ASPNETCORE_URLS` to that
`applicationUrl` value. -/
theorem C6_env_merge (envVars : List (String × String)) (url : Option String) :
    (∀ v : String, envLookup envVars "ASPNETCORE_URLS" = some v → v ≠ "" →
      envLookup (mergeLaunchEnv (some envVars) url) "ASPNETCORE_URLS" = some v) ∧
    (∀ u : String, url = some u → u ≠ "" →
      envLookup envVars "ASPNETCORE_URLS" = none →
      envLookup (mergeLaunchEnv (some envVars) url) "ASPNETCORE_URLS" = some u) := by
  constructor
  · intro v hlk hv
    simp [mergeLaunchEnv, hlk, jsTruthyStr, hv]
  · intro u hu hune hn
    simp [mergeLaunchEnv, hu, hn, jsTruthyStr, hune, envLookup_envSet]

/-- C6 witness: the amended theorem applied to the spec's two scenarios —
an explicit `http://localhost:9999` entry survives a different
`applicationUrl`, and with no entry the `applicationUrl` is synthesized
in. -/
theorem C6_env_merge_witness :
    envLookup (mergeLaunchEnv (some [("ASPNETCORE_URLS", "http://localhost:9999")])
        (some "http://localhost:5000")) "ASPNETCORE_URLS" =
      some "http://localhost:9999" ∧
    envLookup (mergeLaunchEnv (some []) (some "http://localhost:5000"))
        "ASPNETCORE_URLS" =
      some "http://localhost:5000" :=
  ⟨(C6_env_merge [("ASPNETCORE_URLS", "http://localhost:9999")]
      (some "http://localhost:5000")).1 "http://localhost:9999" rfl (by decide),
    (C6_env_merge [] (some "http://localhost:5000")).2 "http://localhost:5000"
      rfl (by decide) rfl⟩

/-- C8 counterexample: a profile whose `commandName` is the *empty* string
— a string other than `"Project"` — is not rejected: the kind check tests
JS truthiness first, so the builder proceeds and produces a
configuration, refuting the claimed rejection of every non-`"Project"`
string. -/
theorem C8_counterexample_empty_commandName :
    (buildCoreclrDotnetStartConfiguration (envWithSettings launchSettingsEmptyKind)
      "/repo/App/App.csproj" "Dev" "dotnet-start").1.isSome = true ∧
    readLaunchProfileDetails launchSettingsEmptyKind "Dev" =
      some { commandName := some "", environmentVariables := some [] } ∧
    ("" : String) ≠ "Project" := by
  decide

/-- C8 (amended): for every profile whose `commandName` is a *non-empty*
string other than `"Project"`, the builder reports an error naming the
offending kind and returns no configuration; the result does not depend
on the resolver-related environment fields, so the rejection happens
before any binary resolution is attempted. -/
theorem C8_unsupported_kind_rejected (env : CsprojServiceEnv)
    (csprojPath profileName configurationName u : String) (root : Json)
    (details : LaunchProfileDetails) (k : String)
    (hUri : env.launchSettingsUri = some u)
    (hJson : env.launchSettingsJson = .ok root)
    (hDetails : readLaunchProfileDetails root profileName = some details)
    (hk : details.commandName = some k) (hne : k ≠ "") (hnp : k ≠ "Project") :
    buildCoreclrDotnetStartConfiguration env csprojPath profileName configurationName =
      (none, ["Launch profile \"" ++ profileName ++ "\" uses commandName=\"" ++ k ++
        "\". Only \"Project\" is supported."]) := by
  simp [buildCoreclrDotnetStartConfiguration, hUri, hJson, hDetails, hk, jsTruthyStr,
    hne, hnp]

/-- C8 witness: the amended theorem applied to a profile with
`commandName: "Executable"`. -/
theorem C8_unsupported_kind_witness :
    buildCoreclrDotnetStartConfiguration (envWithSettings launchSettingsExecutableKind)
        "/repo/App/App.csproj" "Dev" "dotnet-start" =
      (none,
        ["Launch profile \"Dev\" uses commandName=\"Executable\". Only \"Project\" is supported."]) :=
  C8_unsupported_kind_rejected (envWithSettings launchSettingsExecutableKind)
    "/repo/App/App.csproj" "Dev" "dotnet-start"
    "/repo/App/Properties/launchSettings.json" launchSettingsExecutableKind
    { commandName := some "Executable", environmentVariables := some [] }
    "Executable" rfl rfl (by decide) rfl (by decide) (by decide)

/-- C10: a profile whose `commandName` is absent (or not a string, which
`readLaunchProfileDetails` maps to an absent field) passes the kind check
— which only rejects a truthy `commandName` different from `"Project"` —
proceeds to binary resolution and yields a launch descriptor whose
argument list starts with the resolved binary path, provided the resolved
path exists. -/
theorem C10_absent_commandName_accepted (env : CsprojServiceEnv)
    (csprojPath profileName configurationName u : String) (root : Json)
    (details : LaunchProfileDetails)
    (hUri : env.launchSettingsUri = some u)
    (hJson : env.launchSettingsJson = .ok root)
    (hDetails : readLaunchProfileDetails root profileName = some details)
    (hk : details.commandName = none)
    (hExists : env.fileExists
      (CsprojService.resolveTargetBinaryPath env csprojPath).binaryPath = true) :
    buildCoreclrDotnetStartConfiguration env csprojPath profileName configurationName =
      (some
        { type := "coreclr"
          request := "launch"
          name := configurationName
          program := "dotnet"
          args := (CsprojService.resolveTargetBinaryPath env csprojPath).binaryPath ::
            parseCommandLineArgs details.commandLineArgs
          cwd := posixDirname csprojPath
          console := "integratedTerminal"
          internalConsoleOptions := "neverOpen"
          env := mergeLaunchEnv details.environmentVariables details.applicationUrl }, []) := by
  simp [buildCoreclrDotnetStartConfiguration, hUri, hJson, hDetails, hk, jsTruthyStr,
    hExists]

/-- C10 witness: the theorem applied to a profile whose `commandName` is
the number `42` (not a string): the profile is accepted and a launch
descriptor is produced. -/
theorem C10_absent_commandName_witness :
    buildCoreclrDotnetStartConfiguration (envWithSettings launchSettingsNumericKind)
        "/repo/App/App.csproj" "Dev" "dotnet-start" =
      (some
        { type := "coreclr"
          request := "launch"
          name := "dotnet-start"
          program := "dotnet"
          args := ["/repo/App/bin/Debug/net8.0/App.dll"]
          cwd := "/repo/App"
          console := "integratedTerminal"
          internalConsoleOptions := "neverOpen"
          env := [] }, []) :=
  (C10_absent_commandName_accepted (envWithSettings launchSettingsNumericKind)
    "/repo/App/App.csproj" "Dev" "dotnet-start"
    "/repo/App/Properties/launchSettings.json" launchSettingsNumericKind
    { commandName := none, environmentVariables := some [] }
    rfl rfl (by decide) rfl (by decide)).trans (by decide)

/-- C9: in the tokenizer loop a backslash consumes and escapes the
following character exactly when that character is a double quote, a
single quote or another backslash; for any other following character the
backslash itself is kept literally in the current token (and the next
character is processed normally), and a backslash that is the final
character of the input is kept literally before the final flush. -/
theorem C9_backslash_escape_rules (q : Option Char) (current : List Char)
    (acc : List (List Char)) (next : Char) (rest : List Char) :
    ((next = '"' ∨ next = '\'' ∨ next = '\\') →
      parseArgsLoop q current acc ('\\' :: next :: rest) =
        parseArgsLoop q (current ++ [next]) acc rest) ∧
    (¬(next = '"' ∨ next = '\'' ∨ next = '\\') →
      parseArgsLoop q current acc ('\\' :: next :: rest) =
        parseArgsLoop q (current ++ ['\\']) acc (next :: rest)) ∧
    parseArgsLoop q current acc ['\\'] = flushArg (current ++ ['\\']) acc := by
  have hq : ¬((('\\' : Char) = '"' ∨ ('\\' : Char) = '\'') ∧ (q = none ∨ q = some '\\')) := by
    rintro ⟨h, -⟩
    rcases h with h | h <;> simp at h
  have hs : isJsSpace '\\' = false := by decide
  refine ⟨fun h => ?_, fun h => ?_, ?_⟩
  · simp [parseArgsLoop, hq, hs, h]
  · simp [parseArgsLoop, hq, hs, h]
  · simp [parseArgsLoop, hq, hs]

/-- C9 witness: the escape rules at concrete inputs — `\"` escapes the
quote into the token, `\x` keeps the backslash literally, and a trailing
`\` is kept before the flush. -/
theorem C9_backslash_escape_witness :
    parseArgsLoop none [] [] ['\\', '"'] = parseArgsLoop none ['"'] [] [] ∧
    parseArgsLoop none [] [] ['\\', 'x'] = parseArgsLoop none ['\\'] [] ['x'] ∧
    parseArgsLoop none [] [] ['\\'] = flushArg ['\\'] [] :=
  ⟨(C9_backslash_escape_rules none [] [] '"' []).1 (by decide),
    (C9_backslash_escape_rules none [] [] 'x' []).2.1 (by decide),
    (C9_backslash_escape_rules none [] [] 'x' []).2.2⟩

/-- Helper for C7: `flush` only ever emits non-empty tokens. -/
theorem ne_nil_of_mem_flushArg {t cur : List Char} {acc : List (List Char)}
    (hacc : ∀ x ∈ acc, x ≠ []) (ht : t ∈ flushArg cur acc) : t ≠ [] := by
  unfold flushArg at ht
  split at ht
  · exact hacc t ht
  · rcases List.mem_append.mp ht with h | h
    · exact hacc t h
    · rename_i hne
      simp at h
      subst h
      simpa using hne

/-- Helper for C7 (length-bounded form): every token the tokenizer loop
emits is non-empty. -/
theorem parseArgsLoop_ne_nil_aux :
    ∀ (n : Nat) (l : List Char), l.length ≤ n →
      ∀ (q : Option Char) (cur : List Char) (acc : List (List Char)),
        (∀ x ∈ acc, x ≠ []) → ∀ t ∈ parseArgsLoop q cur acc l, t ≠ [] := by
  intro n
  induction n with
  | zero =>
    intro l hl q cur acc hacc t ht
    have : l = [] := List.eq_nil_of_length_eq_zero (Nat.le_zero.mp hl)
    subst this
    exact ne_nil_of_mem_flushArg hacc (by simpa [parseArgsLoop] using ht)
  | succ n ih =>
    intro l hl q cur acc hacc t ht
    cases l with
    | nil => exact ne_nil_of_mem_flushArg hacc (by simpa [parseArgsLoop] using ht)
    | cons c rest =>
      have hrest : rest.length ≤ n := by simpa using hl
      rw [parseArgsLoop.eq_def] at ht
      dsimp only [] at ht
      split at ht
      · exact ih rest hrest _ _ _ hacc t ht
      · split at ht
        · exact ih rest hrest _ _ _ (fun x hx => ne_nil_of_mem_flushArg hacc hx) t ht
        · split at ht
          · split at ht
            · split at ht
              · refine ih _ ?_ _ _ _ hacc t ht
                simp only [List.length_cons] at hrest
                omega
              · exact ih _ hrest _ _ _ hacc t ht
            · exact ne_nil_of_mem_flushArg hacc ht
          · exact ih rest hrest _ _ _ hacc t ht

/-- Helper for C7: every token the tokenizer loop emits is non-empty. -/
theorem parseArgsLoop_ne_nil (l : List Char) (q : Option Char) (cur : List Char)
    (acc : List (List Char)) (hacc : ∀ x ∈ acc, x ≠ []) :
    ∀ t ∈ parseArgsLoop q cur acc l, t ≠ [] :=
  parseArgsLoop_ne_nil_aux l.length l (Nat.le_refl _) q cur acc hacc

/-- Helper for C7: outside quotes, a run of plain characters (no
whitespace, quotes or backslashes) is appended verbatim to the current
token. -/
theorem parseArgsLoop_plain_consume :
    ∀ (s : List Char), s.all plainTokenChar = true →
      ∀ (cur : List Char) (acc : List (List Char)) (rest : List Char),
        parseArgsLoop none cur acc (s ++ rest) = parseArgsLoop none (cur ++ s) acc rest := by
  intro s
  induction s with
  | nil =>
    intro _ cur acc rest
    simp
  | cons c s' ih =>
    intro h cur acc rest
    simp only [List.all_cons, Bool.and_eq_true] at h
    obtain ⟨hc, hs'⟩ := h
    simp only [plainTokenChar, Bool.and_eq_true, Bool.not_eq_true', decide_eq_true_eq] at hc
    obtain ⟨⟨⟨hsp, hdq⟩, hsq⟩, hbs⟩ := hc
    have hq : ¬((c = '"' ∨ c = '\'') ∧
        ((none : Option Char) = none ∨ (none : Option Char) = some c)) := by
      rintro ⟨hd, -⟩
      rcases hd with hd | hd
      · exact hdq hd
      · exact hsq hd
    rw [List.cons_append, parseArgsLoop.eq_def]
    dsimp only
    rw [if_neg hq, if_neg (by simp [hsp]), if_neg hbs, ih hs']
    simp

/-- Helper for C7: outside quotes, a space flushes the current token. -/
theorem parseArgsLoop_space (cur : List Char) (acc : List (List Char)) (rest : List Char) :
    parseArgsLoop none cur acc (' ' :: rest) =
      parseArgsLoop none [] (flushArg cur acc) rest := by
  rw [parseArgsLoop.eq_def]
  dsimp only
  rw [if_neg (by rintro ⟨hd, -⟩; rcases hd with hd | hd <;> simp at hd),
    if_pos ⟨rfl, by decide⟩]

/-- Helper for C7: tokenizing a single-space join of non-empty,
plain-character tokens reproduces exactly those tokens. -/
theorem parseArgsLoop_rejoin :
    ∀ (L : List (List Char)), (∀ t ∈ L, t ≠ [] ∧ t.all plainTokenChar = true) →
      ∀ (acc : List (List Char)),
        parseArgsLoop none [] acc (joinTokensChars L) = acc ++ L := by
  intro L
  induction L with
  | nil =>
    intro _ acc
    simp [joinTokensChars, parseArgsLoop, flushArg]
  | cons t rest ih =>
    intro h acc
    obtain ⟨htne, htp⟩ := h t (by simp)
    cases rest with
    | nil =>
      have : joinTokensChars [t] = t ++ [] := by simp [joinTokensChars]
      rw [this, parseArgsLoop_plain_consume t htp [] acc []]
      simp [parseArgsLoop, flushArg, htne]
    | cons t2 rest2 =>
      have hjoin : joinTokensChars (t :: t2 :: rest2) =
          t ++ ' ' :: joinTokensChars (t2 :: rest2) := by
        simp [joinTokensChars]
      rw [hjoin, parseArgsLoop_plain_consume t htp [] acc (' ' :: joinTokensChars (t2 :: rest2))]
      simp only [List.nil_append]
      rw [parseArgsLoop_space, ih (fun x hx => h x (by simp [hx])) (flushArg t acc)]
      simp [flushArg, htne]

/-- Helper for C7: the character data of the single-space join. -/
theorem joinWithSingleSpaces_data :
    ∀ L : List (List Char),
      (joinWithSingleSpaces (L.map String.mk)).data = joinTokensChars L := by
  intro L
  induction L with
  | nil => rfl
  | cons t rest ih =>
    cases rest with
    | nil => rfl
    | cons t2 rest2 =>
      show (String.mk t ++ " " ++
          joinWithSingleSpaces ((t2 :: rest2).map String.mk)).data =
        t ++ ' ' :: joinTokensChars (t2 :: rest2)
      rw [String.data_append, String.data_append, ih]
      simp

/-- C7 counterexample: the input `\"` tokenizes to the single token `"`
(one escaped quote) which contains no whitespace, yet re-joining and
re-tokenizing yields no tokens at all, because the bare quote now opens an
(empty, unterminated) quoted span — refuting idempotence as claimed. -/
theorem C7_counterexample_quote_token :
    ((parseCommandLineArgs (some "\\\"")).all
      (fun t => t.data.all (fun c => !isJsSpace c))) = true ∧
    parseCommandLineArgs
        (some (joinWithSingleSpaces (parseCommandLineArgs (some "\\\"")))) ≠
      parseCommandLineArgs (some "\\\"") := by
  decide

/-- C7 (amended): re-joining with single spaces and re-tokenizing is the
identity whenever no produced token contains whitespace, a quote
character, or a backslash (the escape characters make quote- or
backslash-bearing tokens non-round-trippable, as the counterexample
shows). -/
theorem C7_tokenize_rejoin_idempotent (text : String)
    (h : ∀ t ∈ parseCommandLineArgs (some text), t.data.all plainTokenChar = true) :
    parseCommandLineArgs
        (some (joinWithSingleSpaces (parseCommandLineArgs (some text)))) =
      parseCommandLineArgs (some text) := by
  by_cases htext : text = ""
  · subst htext
    rfl
  · have hparse : parseCommandLineArgs (some text) =
        (parseArgsLoop none [] [] text.data).map String.mk := by
      simp [parseCommandLineArgs, htext]
    have hne : ∀ ct ∈ parseArgsLoop none [] [] text.data, ct ≠ [] :=
      parseArgsLoop_ne_nil _ _ _ _ (by simp)
    have hplain : ∀ ct ∈ parseArgsLoop none [] [] text.data,
        ct.all plainTokenChar = true := by
      intro ct hc
      simpa using h (String.mk ct) (by rw [hparse]; exact List.mem_map_of_mem _ hc)
    rw [hparse]
    generalize hL : parseArgsLoop none [] [] text.data = L at hne hplain
    cases L with
    | nil => rfl
    | cons ct cts =>
      have hdata := joinWithSingleSpaces_data (ct :: cts)
      have hd : joinTokensChars (ct :: cts) ≠ [] := by
        cases cts with
        | nil => simpa [joinTokensChars] using hne ct (by simp)
        | cons t2 r2 => simp [joinTokensChars]
      have hjne : joinWithSingleSpaces ((ct :: cts).map String.mk) ≠ "" := by
        intro hemp
        apply hd
        rw [← hdata, hemp]
      simp only [parseCommandLineArgs]
      rw [if_neg hjne, hdata,
        parseArgsLoop_rejoin (ct :: cts) (fun x hx => ⟨hne x hx, hplain x hx⟩) []]
      rfl

/-- C7 witness: the amended idempotence theorem applied to the concrete
input `--urls http://localhost:5000`, whose tokens are plain. -/
theorem C7_tokenize_rejoin_witness :
    parseCommandLineArgs
        (some (joinWithSingleSpaces
          (parseCommandLineArgs (some "--urls http://localhost:5000")))) =
      parseCommandLineArgs (some "--urls http://localhost:5000") :=
  C7_tokenize_rejoin_idempotent "--urls http://localhost:5000" (by decide)
